import Mathlib

/-!
Verification of the SCP constructor export core (`scp_constructor/export.py`):
a shallow embedding of `export_json`, `export_mermaid` and `_urn_to_id`,
together with theorems about their graph-construction invariants.
-/

namespace SCP

/-- Character-level split, mirroring Python `str.split(sep)` for a one-character
separator: `splitCh c xs acc` walks `xs`, cutting at every occurrence of `c`.
The result is always non-empty (Python `"".split(":") == [""]`). -/
def splitCh (c : Char) : List Char → List Char → List (List Char)
  | [], acc => [acc.reverse]
  | x :: xs, acc =>
      if x = c then acc.reverse :: splitCh c xs []
      else splitCh c xs (x :: acc)

/-- The last colon-delimited segment of a string, as a character list:
Python `s.split(":")[-1]`. -/
def lastSegList (s : String) : List Char :=
  (splitCh ':' s.data []).getLastD []

/-- Python `s.split(":")[-1]` as a string. -/
def lastSeg (s : String) : String :=
  ⟨lastSegList s⟩

/-- `_urn_to_id` from `export.py`: take the URN's last colon segment
(falling back to the whole URN if the split were empty, which it never is)
and replace hyphens with underscores. -/
def _urn_to_id (urn : String) : String :=
  let parts := splitCh ':' urn.data []
  let nm := if parts = [] then urn.data else parts.getLastD []
  ⟨nm.map (fun ch => if ch = '-' then '_' else ch)⟩

/-- Python `str.title()` on letters: a letter following a non-letter is
uppercased, a letter following a letter is lowercased; other characters
pass through. The boolean records whether the previous character was a letter. -/
def titleMap : Bool → List Char → List Char
  | _, [] => []
  | prev, ch :: cs =>
      (if ch.isAlpha then (if prev then ch.toLower else ch.toUpper) else ch)
        :: titleMap ch.isAlpha cs

/-- Python `str.title()`. -/
def pyTitle (s : String) : String :=
  ⟨titleMap false s.data⟩

/-- The display name `export_mermaid` derives for a stub:
`dep.system.split(":")[-1].replace("-", " ").title()`. -/
def stubDisplayName (target : String) : String :=
  pyTitle ⟨(lastSegList target).map (fun ch => if ch = '-' then ' ' else ch)⟩

/-- Modelled from the spec: the `Classification` record of `models.py`
(absent from the sources; only its use in `export.py` and the tests is
visible): a tier (small integer, 1 = most critical) and a free-text domain. -/
structure Classification where
  tier : Option Int
  domain : Option String
deriving DecidableEq, Repr

/-- Modelled from the spec: the ownership record of `models.py` (absent from
the sources): an owning team name. -/
structure Ownership where
  team : Option String
deriving DecidableEq, Repr

/-- Modelled from the spec: the `System` record of `models.py` (absent from
the sources): URN, display name, optional classification. -/
structure System where
  urn : String
  name : String
  classification : Option Classification
deriving DecidableEq, Repr

/-- Modelled from the spec: the `Capability` record of `models.py` (absent
from the sources): a capability name and a type tag. -/
structure Capability where
  capability : String
  type : Option String
deriving DecidableEq, Repr

/-- Modelled from the spec: the `Dependency` record of `models.py` (absent
from the sources): target system URN, optional capability name, type tag,
criticality and failure-mode labels. -/
structure Dependency where
  system : String
  capability : Option String
  type : Option String
  criticality : Option String
  failure_mode : Option String
deriving DecidableEq, Repr

/-- Modelled from the spec: the `SCPManifest` record of `models.py` (absent
from the sources): schema version, the declared system, optional ownership,
optional provided-capability and dependency lists. -/
structure SCPManifest where
  scp : String
  system : System
  ownership : Option Ownership
  provides : Option (List Capability)
  depends : Option (List Dependency)
deriving DecidableEq, Repr

/-- A node record of the `export_json` output. Python builds heterogeneous
dicts; a key missing from a given dict is modelled by `none` (or `false`
for the `stub` marker). -/
structure Node where
  id : String
  type : String
  name : String
  tier : Option Int
  domain : Option String
  team : Option String
  stub : Bool
  capability_type : Option String
deriving DecidableEq, Repr

/-- An edge record of the `export_json` output. `from` is a Lean keyword,
so the two endpoint fields are `from_` and `to_`. -/
structure Edge where
  from_ : String
  to_ : String
  type : String
  capability : Option String
  criticality : Option String
  failure_mode : Option String
deriving DecidableEq, Repr

/-- The mutable state of `export_json`'s loop: the `nodes` and `edges`
accumulators and the `seen_urns` set (modelled as a duplicate-free list;
only membership is ever queried). -/
structure GState where
  nodes : List Node
  edges : List Edge
  seen_urns : List String
deriving DecidableEq, Repr

/-- The System node `export_json` emits for a manifest's own system. -/
def sysNodeOf (m : SCPManifest) : Node :=
  ⟨m.system.urn, "System", m.system.name,
    m.system.classification.bind (fun c => c.tier),
    m.system.classification.bind (fun c => c.domain),
    m.ownership.bind (fun o => o.team),
    false, none⟩

/-- The stub System node `export_json` synthesizes for an unseen
dependency target. -/
def stubNodeOf (target : String) : Node :=
  ⟨target, "System", lastSeg target, none, none, none, true, none⟩

/-- The DEPENDS_ON edge `export_json` emits for one dependency. -/
def depEdge (urn : String) (dep : Dependency) : Edge :=
  ⟨urn, dep.system, "DEPENDS_ON", dep.capability, dep.criticality, dep.failure_mode⟩

/-- The Capability node `export_json` emits for one provided capability. -/
def capNodeOf (urn : String) (cap : Capability) : Node :=
  ⟨urn ++ ":" ++ cap.capability, "Capability", cap.capability,
    none, none, none, false, cap.type⟩

/-- The PROVIDES edge `export_json` emits for one provided capability. -/
def provEdge (urn : String) (cap : Capability) : Edge :=
  ⟨urn, urn ++ ":" ++ cap.capability, "PROVIDES", none, none, none⟩

/-- One iteration of the dependency loop of `export_json`: synthesize a stub
node (and mark the target seen) if the target URN is unseen, then append
the DEPENDS_ON edge. -/
def processDep (urn : String) (s : GState) (dep : Dependency) : GState :=
  let s1 : GState :=
    if dep.system ∈ s.seen_urns then s
    else ⟨s.nodes ++ [stubNodeOf dep.system], s.edges, s.seen_urns ++ [dep.system]⟩
  ⟨s1.nodes, s1.edges ++ [depEdge urn dep], s1.seen_urns⟩

/-- One iteration of the capability loop of `export_json`: append the
Capability node and the PROVIDES edge. -/
def processCap (urn : String) (s : GState) (cap : Capability) : GState :=
  ⟨s.nodes ++ [capNodeOf urn cap], s.edges ++ [provEdge urn cap], s.seen_urns⟩

/-- One iteration of the manifest loop of `export_json`: emit the System
node if its URN is unseen, then process dependencies, then capabilities.
Python's `if manifest.depends:` / `if manifest.provides:` truthiness guards
are equivalent to folding over the list with `[]` for an absent field. -/
def processManifest (s : GState) (m : SCPManifest) : GState :=
  let urn := m.system.urn
  let s1 : GState :=
    if urn ∈ s.seen_urns then s
    else ⟨s.nodes ++ [sysNodeOf m], s.edges, s.seen_urns ++ [urn]⟩
  let s2 := (m.depends.getD []).foldl (processDep urn) s1
  (m.provides.getD []).foldl (processCap urn) s2

/-- The initial (empty) loop state of `export_json`. -/
def initState : GState := ⟨[], [], []⟩

/-- The loop of `export_json` over the whole manifest sequence. -/
def runManifests (ms : List SCPManifest) : GState :=
  ms.foldl processManifest initState

/-- The `meta` record of the `export_json` output. -/
structure MetaCounts where
  systems_count : Nat
  capabilities_count : Nat
  dependencies_count : Nat
deriving DecidableEq, Repr

/-- The `export_json` output: nodes, edges, and derived summary counts. -/
structure Graph where
  nodes : List Node
  edges : List Edge
  meta : MetaCounts
deriving DecidableEq, Repr

/-- `export_json` from `export.py`: run the manifest loop, then derive the
summary counts by filtering the emitted node and edge lists. -/
def export_json (manifests : List SCPManifest) : Graph :=
  let s := runManifests manifests
  ⟨s.nodes, s.edges,
    ⟨(s.nodes.filter (fun n => n.type == "System")).length,
     (s.nodes.filter (fun n => n.type == "Capability")).length,
     (s.edges.filter (fun e => e.type == "DEPENDS_ON")).length⟩⟩

/-- The per-system record `export_mermaid` keeps in its `systems` registry:
sanitized short identifier, display name, tier. -/
structure MSysInfo where
  id : String
  name : String
  tier : Option Int
deriving DecidableEq, Repr

/-- The `systems` registry of `export_mermaid`: a Python dict modelled as an
insertion-ordered association list with unique keys. -/
abbrev Registry := List (String × MSysInfo)

/-- Python dict lookup `systems[k]` (as an option). -/
def regFind : Registry → String → Option MSysInfo
  | [], _ => none
  | p :: ps, k => if p.1 = k then some p.2 else regFind ps k

/-- Python dict membership `k in systems`. -/
def hasKey (reg : Registry) (k : String) : Bool :=
  (regFind reg k).isSome

/-- Python dict assignment `systems[k] = v`: replace in place (keeping the
key's original position) if the key is present, otherwise append. -/
def regInsert : Registry → String → MSysInfo → Registry
  | [], k, v => [(k, v)]
  | p :: ps, k, v => if p.1 = k then (k, v) :: ps else p :: regInsert ps k v

/-- The registry record `export_mermaid` stores for a declared system. -/
def sysInfoOf (m : SCPManifest) : MSysInfo :=
  ⟨_urn_to_id m.system.urn, m.system.name,
    m.system.classification.bind (fun c => c.tier)⟩

/-- The registry record `export_mermaid` stores for a stub dependency target. -/
def stubInfoOf (target : String) : MSysInfo :=
  ⟨_urn_to_id target, stubDisplayName target, none⟩

/-- A recorded dependency triple of `export_mermaid`:
(consumer URN, target URN, optional capability label). -/
abbrev MTriple := String × String × Option String

/-- The gathering state of `export_mermaid`: the `systems` registry and the
recorded `dependencies` triples. -/
abbrev MState := Registry × List MTriple

/-- One iteration of the dependency loop of `export_mermaid`: record the
triple, then synthesize a stub registry entry if the target is unregistered. -/
def mDepStep (urn : String) (a : MState) (dep : Dependency) : MState :=
  let deps := a.2 ++ [(urn, dep.system, dep.capability)]
  if hasKey a.1 dep.system then (a.1, deps)
  else (a.1 ++ [(dep.system, stubInfoOf dep.system)], deps)

/-- One iteration of the manifest loop of `export_mermaid`: (re)register the
manifest's system, then process its dependencies. -/
def mManifestStep (a : MState) (m : SCPManifest) : MState :=
  let urn := m.system.urn
  let reg1 := regInsert a.1 urn (sysInfoOf m)
  (m.depends.getD []).foldl (mDepStep urn) (reg1, a.2)

/-- The gathering phase of `export_mermaid` over the whole manifest sequence. -/
def mermaidGather (ms : List SCPManifest) : MState :=
  ms.foldl mManifestStep ([], [])

/-- The node-declaration line `export_mermaid` emits for one registered
system: double-bracket shape with the red glyph for tier 1, single-bracket
with the yellow glyph for tier 2, plain single-bracket otherwise. -/
def nodeLine (info : MSysInfo) : String :=
  if info.tier = some 1 then
    "    " ++ info.id ++ "[[\"🔴 " ++ info.name ++ "\"]]"
  else if info.tier = some 2 then
    "    " ++ info.id ++ "[\"🟡 " ++ info.name ++ "\"]"
  else
    "    " ++ info.id ++ "[\"" ++ info.name ++ "\"]"

/-- The edge line `export_mermaid` emits for one recorded dependency triple
(looking both endpoints up in the registry; the lookups never fail, see the
totality theorem). -/
def edgeLine (reg : Registry) (t : MTriple) : String :=
  let fi := ((regFind reg t.1).getD ⟨"", "", none⟩).id
  let ti := ((regFind reg t.2.1).getD ⟨"", "", none⟩).id
  match t.2.2 with
  | some cap => "    " ++ fi ++ " -->|" ++ cap ++ "| " ++ ti
  | none => "    " ++ fi ++ " --> " ++ ti

/-- The identifiers of tier-1 registered systems, in registration order. -/
def tier1Ids (reg : Registry) : List String :=
  (reg.filter (fun p => p.2.tier == some 1)).map (fun p => p.2.id)

/-- The trailing style block of `export_mermaid`: the `classDef` and `class`
lines when tier-1 systems exist, nothing otherwise. -/
def styleLines (reg : Registry) : List String :=
  if tier1Ids reg = [] then []
  else
    ["    classDef critical fill:#ff6b6b,stroke:#333,stroke-width:2px",
     "    class " ++ String.intercalate "," (tier1Ids reg) ++ " critical"]

/-- The full line list of `export_mermaid`. -/
def mermaidLines (ms : List SCPManifest) (direction : String) : List String :=
  let a := mermaidGather ms
  ["flowchart " ++ direction]
    ++ ["", "    %% Systems"]
    ++ a.1.map (fun p => nodeLine p.2)
    ++ ["", "    %% Dependencies"]
    ++ a.2.map (edgeLine a.1)
    ++ ["", "    %% Styling"]
    ++ styleLines a.1

/-- `export_mermaid` from `export.py`: the lines joined by newlines.
The Python default for `direction` is `"LR"`. -/
def export_mermaid (manifests : List SCPManifest) (direction : String) : String :=
  String.intercalate "\n" (mermaidLines manifests direction)

/-- The stub nodes the dependency loop of `export_json` appends, given the
seen-set at loop entry: one stub per dependency whose target is unseen at
the moment it is processed (the seen-set grows as the loop runs). -/
def stubsAcc (seen : List String) : List Dependency → List Node
  | [] => []
  | d :: ds =>
      if d.system ∈ seen then stubsAcc seen ds
      else stubNodeOf d.system :: stubsAcc (seen ++ [d.system]) ds

/-- The System-node segment a manifest contributes: its own System node if
the URN is unseen, nothing otherwise. -/
def sysPart (seen : List String) (m : SCPManifest) : List Node :=
  if m.system.urn ∈ seen then [] else [sysNodeOf m]

/-- All nodes one manifest appends, given the seen-set at its start:
System node (if unseen), then dependency stubs, then capability nodes. -/
def manifestNewNodes (seen : List String) (m : SCPManifest) : List Node :=
  sysPart seen m
    ++ stubsAcc (seen ++ (sysPart seen m).map (fun n => n.id)) (m.depends.getD [])
    ++ (m.provides.getD []).map (capNodeOf m.system.urn)

/-- All edges one manifest appends: its DEPENDS_ON edges, then its
PROVIDES edges. -/
def manifestNewEdges (m : SCPManifest) : List Edge :=
  (m.depends.getD []).map (depEdge m.system.urn)
    ++ (m.provides.getD []).map (provEdge m.system.urn)

/-- All URNs one manifest adds to the seen-set. -/
def manifestNewSeen (seen : List String) (m : SCPManifest) : List String :=
  (sysPart seen m).map (fun n => n.id)
    ++ (stubsAcc (seen ++ (sysPart seen m).map (fun n => n.id))
          (m.depends.getD [])).map (fun n => n.id)

/-- The identifiers of the System-typed nodes of a node list, in order. -/
def sysIds (ns : List Node) : List String :=
  (ns.filter (fun n => n.type == "System")).map (fun n => n.id)

/-- The identifiers of all nodes of a node list, in order. -/
def nodeIds (ns : List Node) : List String :=
  ns.map (fun n => n.id)

/-- Every recorded dependency triple of `export_mermaid` resolves both of its
registry lookups (the dict accesses that would raise `KeyError` in Python). -/
def mermaidLookupsOk (ms : List SCPManifest) : Bool :=
  (mermaidGather ms).2.all
    (fun t => hasKey (mermaidGather ms).1 t.1 && hasKey (mermaidGather ms).1 t.2.1)

/-- Sample capability used by concrete inputs. -/
def capC : Capability := ⟨"c", some "rest"⟩

/-- Sample manifest: system `u:a` providing capability `c`. -/
def mA : SCPManifest := ⟨"1", ⟨"u:a", "A", none⟩, none, some [capC], none⟩

/-- Sample manifest: system `u:a`, no capabilities or dependencies. -/
def mA0 : SCPManifest := ⟨"1", ⟨"u:a", "A0", none⟩, none, none, none⟩

/-- Sample manifest: a second manifest for `u:a` providing capability `c`. -/
def mA1 : SCPManifest := ⟨"1", ⟨"u:a", "A1", none⟩, none, some [capC], none⟩

/-- Sample dependency on system `u:v`. -/
def depV : Dependency := ⟨"u:v", some "k", none, some "required", some "fail-fast"⟩

/-- Sample manifest: system `u:w` depending on `u:v` (which forces a stub). -/
def mW : SCPManifest := ⟨"1", ⟨"u:w", "W", none⟩, none, none, some [depV]⟩

/-- Sample manifest declaring `u:v` for real, with tier, domain, team and a
capability. -/
def mV : SCPManifest :=
  ⟨"1", ⟨"u:v", "V Real", some ⟨some 1, some "dom"⟩⟩, some ⟨some "team-v"⟩,
    some [⟨"k", some "rest"⟩], none⟩

/-- Sample manifest: tier-2 system whose URN `x:a-b` sanitizes to `a_b`. -/
def m8a : SCPManifest := ⟨"1", ⟨"x:a-b", "AB", some ⟨some 2, none⟩⟩, none, none, none⟩

/-- Sample manifest: tier-1 system whose URN `x:a_b` also sanitizes to `a_b`. -/
def m8b : SCPManifest := ⟨"1", ⟨"x:a_b", "AB2", some ⟨some 1, none⟩⟩, none, none, none⟩

/-! ### Decomposition lemmas for the `export_json` loop -/

theorem foldl_processDep_spec (urn : String) (deps : List Dependency) :
    ∀ s : GState,
      deps.foldl (processDep urn) s =
        ⟨s.nodes ++ stubsAcc s.seen_urns deps,
         s.edges ++ deps.map (depEdge urn),
         s.seen_urns ++ (stubsAcc s.seen_urns deps).map (fun n => n.id)⟩ := by
  induction deps with
  | nil => intro s; simp [stubsAcc]
  | cons d ds ih =>
      intro s
      rw [List.foldl_cons, ih]
      by_cases h : d.system ∈ s.seen_urns
      · simp [processDep, stubsAcc, h]
      · simp [processDep, stubsAcc, h, stubNodeOf]

theorem foldl_processCap_spec (urn : String) (caps : List Capability) :
    ∀ s : GState,
      caps.foldl (processCap urn) s =
        ⟨s.nodes ++ caps.map (capNodeOf urn),
         s.edges ++ caps.map (provEdge urn),
         s.seen_urns⟩ := by
  induction caps with
  | nil => intro s; simp
  | cons c cs ih =>
      intro s
      rw [List.foldl_cons, ih]
      simp [processCap]

theorem processManifest_spec (s : GState) (m : SCPManifest) :
    processManifest s m =
      ⟨s.nodes ++ manifestNewNodes s.seen_urns m,
       s.edges ++ manifestNewEdges m,
       s.seen_urns ++ manifestNewSeen s.seen_urns m⟩ := by
  unfold processManifest
  by_cases h : m.system.urn ∈ s.seen_urns
  · simp only [h, if_pos]
    rw [foldl_processDep_spec, foldl_processCap_spec]
    simp [manifestNewNodes, manifestNewEdges, manifestNewSeen, sysPart, h]
  · simp only [h, if_neg, if_false]
    rw [foldl_processDep_spec, foldl_processCap_spec]
    simp [manifestNewNodes, manifestNewEdges, manifestNewSeen, sysPart, h, sysNodeOf]

/-! ### Shape and freshness of the appended node segments -/

theorem stubsAcc_shape (deps : List Dependency) :
    ∀ seen n, n ∈ stubsAcc seen deps → n = stubNodeOf n.id := by
  induction deps with
  | nil => intro seen n h; simp [stubsAcc] at h
  | cons d ds ih =>
      intro seen n h
      by_cases hd : d.system ∈ seen
      · exact ih seen n (by simpa [stubsAcc, hd] using h)
      · simp only [stubsAcc, hd, if_neg, if_false] at h
        rcases List.mem_cons.mp h with h | h
        · subst h; rfl
        · exact ih (seen ++ [d.system]) n h

theorem stubsAcc_stub (deps : List Dependency) (seen : List String) (n : Node)
    (h : n ∈ stubsAcc seen deps) : n.stub = true := by
  rw [stubsAcc_shape deps seen n h]; rfl

theorem stubsAcc_sys (deps : List Dependency) (seen : List String) (n : Node)
    (h : n ∈ stubsAcc seen deps) : n.type = "System" := by
  rw [stubsAcc_shape deps seen n h]; rfl

theorem stubsAcc_fresh (deps : List Dependency) :
    ∀ seen x, x ∈ (stubsAcc seen deps).map (fun n => n.id) → x ∉ seen := by
  induction deps with
  | nil => intro seen x h; simp [stubsAcc] at h
  | cons d ds ih =>
      intro seen x h
      by_cases hd : d.system ∈ seen
      · exact ih seen x (by simpa [stubsAcc, hd] using h)
      · simp only [stubsAcc, hd, if_neg, if_false, List.map_cons, stubNodeOf] at h
        rcases List.mem_cons.mp h with h | h
        · subst h; exact hd
        · intro hx
          exact ih (seen ++ [d.system]) x h (List.mem_append_left _ hx)

theorem stubsAcc_nodup (deps : List Dependency) :
    ∀ seen, ((stubsAcc seen deps).map (fun n => n.id)).Nodup := by
  induction deps with
  | nil => intro seen; simp [stubsAcc]
  | cons d ds ih =>
      intro seen
      by_cases hd : d.system ∈ seen
      · simpa [stubsAcc, hd] using ih seen
      · simp only [stubsAcc, hd, if_neg, if_false, List.map_cons, stubNodeOf]
        refine List.nodup_cons.mpr ⟨?_, ih (seen ++ [d.system])⟩
        intro hmem
        exact stubsAcc_fresh ds (seen ++ [d.system]) d.system hmem
          (List.mem_append_right _ (List.mem_singleton.mpr rfl))

theorem manifestNewSeen_fresh (seen : List String) (m : SCPManifest) :
    ∀ x ∈ manifestNewSeen seen m, x ∉ seen := by
  intro x hx
  rcases List.mem_append.mp hx with hx | hx
  · unfold sysPart at hx
    by_cases h : m.system.urn ∈ seen
    · simp [h] at hx
    · simp only [h, if_neg, if_false, List.map_cons, List.map_nil, sysNodeOf] at hx
      rcases List.mem_singleton.mp hx with rfl
      exact h
  · intro hmem
    exact stubsAcc_fresh _ _ x hx (List.mem_append_left _ hmem)

theorem manifestNewSeen_nodup (seen : List String) (m : SCPManifest) :
    (manifestNewSeen seen m).Nodup := by
  unfold manifestNewSeen
  refine List.Nodup.append ?_ (stubsAcc_nodup _ _) ?_
  · unfold sysPart
    by_cases h : m.system.urn ∈ seen <;> simp [h]
  · intro x hx hmem
    exact stubsAcc_fresh _ _ x hmem (List.mem_append_right _ hx)

theorem capsMap_filter_sys (caps : List Capability) (urn : String) :
    (caps.map (capNodeOf urn)).filter (fun n => n.type == "System") = [] := by
  induction caps with
  | nil => rfl
  | cons c cs ih => simp [capNodeOf, ih]

theorem manifestNewNodes_sysIds (seen : List String) (m : SCPManifest) :
    sysIds (manifestNewNodes seen m) = manifestNewSeen seen m := by
  unfold manifestNewNodes manifestNewSeen sysIds
  rw [List.filter_append, List.filter_append, capsMap_filter_sys,
    List.filter_eq_self.mpr, List.filter_eq_self.mpr]
  · simp
  · intro n hn
    simpa using stubsAcc_sys _ _ n hn
  · intro n hn
    unfold sysPart at hn
    by_cases h : m.system.urn ∈ seen
    · simp [h] at hn
    · simp only [h, if_neg, if_false] at hn
      rcases List.mem_singleton.mp hn with rfl
      rfl

/-! ### Global invariants of the `export_json` loop -/

theorem foldl_sysIds_seen (ms : List SCPManifest) :
    ∀ s : GState, sysIds s.nodes = s.seen_urns →
      sysIds (ms.foldl processManifest s).nodes = (ms.foldl processManifest s).seen_urns := by
  induction ms with
  | nil => intro s h; exact h
  | cons m rest ih =>
      intro s h
      rw [List.foldl_cons]
      refine ih _ ?_
      rw [processManifest_spec]
      show sysIds (s.nodes ++ manifestNewNodes s.seen_urns m)
        = s.seen_urns ++ manifestNewSeen s.seen_urns m
      unfold sysIds
      rw [List.filter_append, List.map_append, ← sysIds, ← sysIds,
        manifestNewNodes_sysIds, h]

theorem runManifests_sysIds (ms : List SCPManifest) :
    sysIds (runManifests ms).nodes = (runManifests ms).seen_urns :=
  foldl_sysIds_seen ms initState rfl

theorem foldl_seen_nodup (ms : List SCPManifest) :
    ∀ s : GState, s.seen_urns.Nodup → (ms.foldl processManifest s).seen_urns.Nodup := by
  induction ms with
  | nil => intro s h; exact h
  | cons m rest ih =>
      intro s h
      rw [List.foldl_cons]
      refine ih _ ?_
      rw [processManifest_spec]
      show (s.seen_urns ++ manifestNewSeen s.seen_urns m).Nodup
      refine List.Nodup.append h (manifestNewSeen_nodup _ _) ?_
      intro x hx hmem
      exact manifestNewSeen_fresh _ _ x hmem hx

theorem runManifests_seen_nodup (ms : List SCPManifest) :
    (runManifests ms).seen_urns.Nodup :=
  foldl_seen_nodup ms initState List.nodup_nil

theorem manifestNewNodes_stub_shape (seen : List String) (m : SCPManifest) (n : Node)
    (hn : n ∈ manifestNewNodes seen m) (hs : n.stub = true) : n = stubNodeOf n.id := by
  unfold manifestNewNodes at hn
  rcases List.mem_append.mp hn with hn | hn
  · rcases List.mem_append.mp hn with hn | hn
    · unfold sysPart at hn
      by_cases h : m.system.urn ∈ seen
      · simp [h] at hn
      · simp only [h, if_neg, if_false] at hn
        rcases List.mem_singleton.mp hn with rfl
        simp [sysNodeOf] at hs
    · exact stubsAcc_shape _ _ n hn
  · rcases List.mem_map.mp hn with ⟨c, _, rfl⟩
    simp [capNodeOf] at hs

theorem foldl_stub_shape (ms : List SCPManifest) :
    ∀ s : GState, (∀ n ∈ s.nodes, n.stub = true → n = stubNodeOf n.id) →
      ∀ n ∈ (ms.foldl processManifest s).nodes, n.stub = true → n = stubNodeOf n.id := by
  induction ms with
  | nil => intro s h; exact h
  | cons m rest ih =>
      intro s h
      rw [List.foldl_cons]
      refine ih _ ?_
      rw [processManifest_spec]
      intro n hn hs
      rcases List.mem_append.mp hn with hn | hn
      · exact h n hn hs
      · exact manifestNewNodes_stub_shape _ _ n hn hs

theorem runManifests_stub_shape (ms : List SCPManifest) :
    ∀ n ∈ (runManifests ms).nodes, n.stub = true → n = stubNodeOf n.id :=
  foldl_stub_shape ms initState (by intro n hn; simp [initState] at hn)

/-! ### Monotonicity of the `export_json` loop -/

theorem foldl_nodes_mono (ms : List SCPManifest) :
    ∀ s : GState, ∃ t, (ms.foldl processManifest s).nodes = s.nodes ++ t := by
  induction ms with
  | nil => intro s; exact ⟨[], by simp⟩
  | cons m rest ih =>
      intro s
      rw [List.foldl_cons]
      rcases ih (processManifest s m) with ⟨t, ht⟩
      rw [ht, processManifest_spec]
      exact ⟨manifestNewNodes s.seen_urns m ++ t, by simp⟩

theorem foldl_seen_mono (ms : List SCPManifest) :
    ∀ s : GState, ∀ x ∈ s.seen_urns, x ∈ (ms.foldl processManifest s).seen_urns := by
  induction ms with
  | nil => intro s x hx; exact hx
  | cons m rest ih =>
      intro s x hx
      rw [List.foldl_cons]
      refine ih _ x ?_
      rw [processManifest_spec]
      exact List.mem_append_left _ hx

theorem urn_mem_after (s : GState) (m : SCPManifest) :
    m.system.urn ∈ (processManifest s m).seen_urns := by
  rw [processManifest_spec]
  by_cases h : m.system.urn ∈ s.seen_urns
  · exact List.mem_append_left _ h
  · refine List.mem_append_right _ ?_
    unfold manifestNewSeen sysPart
    simp [h, sysNodeOf]

theorem urn_mem_foldl (ms : List SCPManifest) :
    ∀ s : GState, ∀ m ∈ ms, m.system.urn ∈ (ms.foldl processManifest s).seen_urns := by
  induction ms with
  | nil => intro s m hm; simp at hm
  | cons m0 rest ih =>
      intro s m hm
      rw [List.foldl_cons]
      rcases List.mem_cons.mp hm with rfl | hm
      · exact foldl_seen_mono rest _ _ (urn_mem_after s m)
      · exact ih _ m hm

/-! ### Stability: a seen URN never gains another System node -/

theorem manifestNewNodes_sys_fresh (seen : List String) (m : SCPManifest) (n : Node)
    (hn : n ∈ manifestNewNodes seen m) (ht : n.type = "System") : n.id ∉ seen := by
  have hmem : n.id ∈ sysIds (manifestNewNodes seen m) := by
    unfold sysIds
    exact List.mem_map.mpr ⟨n, List.mem_filter.mpr ⟨hn, by simp [ht]⟩, rfl⟩
  rw [manifestNewNodes_sysIds] at hmem
  exact manifestNewSeen_fresh _ _ _ hmem

theorem step_sys_filter_stable (s : GState) (m : SCPManifest) (u : String)
    (hu : u ∈ s.seen_urns) :
    (processManifest s m).nodes.filter (fun n => n.type == "System" && n.id == u)
      = s.nodes.filter (fun n => n.type == "System" && n.id == u) := by
  rw [processManifest_spec]
  show (s.nodes ++ manifestNewNodes s.seen_urns m).filter _ = _
  have h2 : (manifestNewNodes s.seen_urns m).filter
      (fun n => n.type == "System" && n.id == u) = [] := by
    refine List.filter_eq_nil_iff.mpr ?_
    intro n hn
    simp only [Bool.and_eq_true, beq_iff_eq, not_and]
    intro ht hid
    exact manifestNewNodes_sys_fresh _ _ n hn ht (hid ▸ hu)
  rw [List.filter_append, h2, List.append_nil]

theorem foldl_sys_filter_stable (ms : List SCPManifest) :
    ∀ s : GState, ∀ u ∈ s.seen_urns,
      (ms.foldl processManifest s).nodes.filter (fun n => n.type == "System" && n.id == u)
        = s.nodes.filter (fun n => n.type == "System" && n.id == u) := by
  induction ms with
  | nil => intro s u _; rfl
  | cons m rest ih =>
      intro s u hu
      rw [List.foldl_cons]
      rw [ih _ u (by rw [processManifest_spec]; exact List.mem_append_left _ hu)]
      exact step_sys_filter_stable s m u hu

/-! ### Edge endpoints always resolve to present node identifiers -/

theorem dep_targets_mem (deps : List Dependency) :
    ∀ seen, ∀ d ∈ deps,
      d.system ∈ seen ++ (stubsAcc seen deps).map (fun n => n.id) := by
  induction deps with
  | nil => intro seen d hd; simp at hd
  | cons d0 ds ih =>
      intro seen d hd
      by_cases h0 : d0.system ∈ seen
      · rcases List.mem_cons.mp hd with rfl | hd
        · simp only [stubsAcc, h0, if_pos]
          exact List.mem_append_left _ h0
        · simpa [stubsAcc, h0] using ih seen d hd
      · simp only [stubsAcc, h0, if_neg, if_false, List.map_cons, stubNodeOf]
        rcases List.mem_cons.mp hd with rfl | hd
        · exact List.mem_append_right _ (List.mem_cons_self _ _)
        · have := ih (seen ++ [d0.system]) d hd
          simp only [List.mem_append, List.mem_singleton, List.mem_cons] at this ⊢
          tauto

theorem sysIds_sub_nodeIds (ns : List Node) (x : String)
    (hx : x ∈ sysIds ns) : x ∈ nodeIds ns := by
  unfold sysIds at hx
  unfold nodeIds
  rcases List.mem_map.mp hx with ⟨n, hn, rfl⟩
  exact List.mem_map.mpr ⟨n, (List.mem_filter.mp hn).1, rfl⟩

theorem manifest_endpoints (s : GState) (m : SCPManifest)
    (hE : ∀ e ∈ s.edges, e.from_ ∈ nodeIds s.nodes ∧ e.to_ ∈ nodeIds s.nodes)
    (hS : ∀ u ∈ s.seen_urns, u ∈ nodeIds s.nodes) :
    (∀ e ∈ (processManifest s m).edges,
        e.from_ ∈ nodeIds (processManifest s m).nodes
          ∧ e.to_ ∈ nodeIds (processManifest s m).nodes)
      ∧ (∀ u ∈ (processManifest s m).seen_urns,
          u ∈ nodeIds (processManifest s m).nodes) := by
  have hseen := urn_mem_after s m
  rw [processManifest_spec] at hseen ⊢
  have hids : nodeIds (s.nodes ++ manifestNewNodes s.seen_urns m)
      = nodeIds s.nodes ++ nodeIds (manifestNewNodes s.seen_urns m) := by
    unfold nodeIds; simp
  have hS' : ∀ u ∈ s.seen_urns ++ manifestNewSeen s.seen_urns m,
      u ∈ nodeIds (s.nodes ++ manifestNewNodes s.seen_urns m) := by
    intro u hu
    rw [hids]
    rcases List.mem_append.mp hu with hu | hu
    · exact List.mem_append_left _ (hS u hu)
    · refine List.mem_append_right _ ?_
      refine sysIds_sub_nodeIds _ _ ?_
      rw [manifestNewNodes_sysIds]
      exact hu
  refine ⟨?_, hS'⟩
  intro e he
  rcases List.mem_append.mp he with he | he
  · rcases hE e he with ⟨h1, h2⟩
    rw [hids]
    exact ⟨List.mem_append_left _ h1, List.mem_append_left _ h2⟩
  · unfold manifestNewEdges at he
    rcases List.mem_append.mp he with he | he
    · rcases List.mem_map.mp he with ⟨d, hd, rfl⟩
      refine ⟨hS' _ hseen, hS' _ ?_⟩
      show d.system ∈ s.seen_urns ++ manifestNewSeen s.seen_urns m
      have := dep_targets_mem (m.depends.getD [])
        (s.seen_urns ++ (sysPart s.seen_urns m).map (fun n => n.id)) d hd
      unfold manifestNewSeen
      simp only [List.mem_append] at this ⊢
      tauto
    · rcases List.mem_map.mp he with ⟨c, hc, rfl⟩
      refine ⟨hS' _ hseen, ?_⟩
      rw [hids]
      refine List.mem_append_right _ ?_
      unfold nodeIds
      refine List.mem_map.mpr ⟨capNodeOf m.system.urn c, ?_, rfl⟩
      unfold manifestNewNodes
      exact List.mem_append_right _ (List.mem_map.mpr ⟨c, hc, rfl⟩)

theorem foldl_endpoints (ms : List SCPManifest) :
    ∀ s : GState,
      (∀ e ∈ s.edges, e.from_ ∈ nodeIds s.nodes ∧ e.to_ ∈ nodeIds s.nodes) →
      (∀ u ∈ s.seen_urns, u ∈ nodeIds s.nodes) →
      ∀ e ∈ (ms.foldl processManifest s).edges,
        e.from_ ∈ nodeIds (ms.foldl processManifest s).nodes
          ∧ e.to_ ∈ nodeIds (ms.foldl processManifest s).nodes := by
  induction ms with
  | nil => intro s hE hS; exact hE
  | cons m rest ih =>
      intro s hE hS
      rw [List.foldl_cons]
      rcases manifest_endpoints s m hE hS with ⟨hE', hS'⟩
      exact ih _ hE' hS'

theorem runManifests_endpoints (ms : List SCPManifest) :
    ∀ e ∈ (runManifests ms).edges,
      e.from_ ∈ nodeIds (runManifests ms).nodes
        ∧ e.to_ ∈ nodeIds (runManifests ms).nodes :=
  foldl_endpoints ms initState
    (by intro e he; simp [initState] at he)
    (by intro u hu; simp [initState] at hu)

/-! ### Claim theorems about `export_json` -/

/-- C1, counterexample: two manifests for the same URN, each providing the
same capability, yield two Capability nodes with identical id `u:a:c`, so the
output node identifiers are not duplicate-free for all inputs. -/
theorem c1_counterexample :
    ¬ (((export_json [mA, mA]).nodes.map (fun n => n.id)).Nodup) := by decide

/-- C1 (amended): for every manifest sequence, the identifiers of the
System-typed nodes of the `export_json` output contain no duplicates
(Capability node ids are re-emitted per manifest and can repeat). -/
theorem c1_system_ids_nodup (ms : List SCPManifest) :
    (((export_json ms).nodes.filter (fun n => n.type == "System")).map
        (fun n => n.id)).Nodup := by
  show (sysIds (runManifests ms).nodes).Nodup
  rw [runManifests_sysIds]
  exact runManifests_seen_nodup ms

/-- C2 (amended): when a manifest's URN already occurred in an earlier
manifest, `export_json` keeps the first occurrence's System node untouched
(no re-emission, no merge), and the later manifest contributes its edges; it
adds no System node for that URN, though it can still append stub nodes for
its unseen dependency targets and Capability nodes for its capabilities. -/
theorem c2_duplicate_urn (pre : List SCPManifest) (m : SCPManifest)
    (post : List SCPManifest)
    (h : ∃ m' ∈ pre, m'.system.urn = m.system.urn) :
    ((export_json (pre ++ m :: post)).nodes.filter
        (fun n => n.type == "System" && n.id == m.system.urn)
      = (export_json pre).nodes.filter
        (fun n => n.type == "System" && n.id == m.system.urn))
    ∧ (export_json (pre ++ [m])).edges = (export_json pre).edges ++ manifestNewEdges m
    ∧ ∃ extra, (export_json (pre ++ [m])).nodes = (export_json pre).nodes ++ extra
        ∧ ∀ n ∈ extra, (n.type = "System" ∧ n.stub = true) ∨ n.type = "Capability" := by
  rcases h with ⟨m', hm', hurn⟩
  have hu : m.system.urn ∈ (runManifests pre).seen_urns :=
    hurn ▸ urn_mem_foldl pre initState m' hm'
  have hsplit : runManifests (pre ++ m :: post)
      = (m :: post).foldl processManifest (runManifests pre) := by
    unfold runManifests
    rw [List.foldl_append]
  have hone : runManifests (pre ++ [m]) = processManifest (runManifests pre) m := by
    unfold runManifests
    rw [List.foldl_append]
    rfl
  refine ⟨?_, ?_, ?_⟩
  · show (runManifests (pre ++ m :: post)).nodes.filter _
      = (runManifests pre).nodes.filter _
    rw [hsplit]
    exact foldl_sys_filter_stable (m :: post) (runManifests pre) _ hu
  · show (runManifests (pre ++ [m])).edges = (runManifests pre).edges ++ _
    rw [hone, processManifest_spec]
  · refine ⟨manifestNewNodes (runManifests pre).seen_urns m, ?_, ?_⟩
    · show (runManifests (pre ++ [m])).nodes = (runManifests pre).nodes ++ _
      rw [hone, processManifest_spec]
    · intro n hn
      unfold manifestNewNodes at hn
      rcases List.mem_append.mp hn with hn | hn
      · rcases List.mem_append.mp hn with hn | hn
        · unfold sysPart at hn
          simp [hu] at hn
        · exact Or.inl ⟨stubsAcc_sys _ _ n hn, stubsAcc_stub _ _ n hn⟩
      · rcases List.mem_map.mp hn with ⟨c, _, rfl⟩
        exact Or.inr rfl

/-- C2, witness: a concrete duplicate-URN pair satisfying the hypothesis. -/
theorem c2_witness :
    (∃ m' ∈ [mA0], m'.system.urn = mA1.system.urn)
    ∧ (((export_json ([mA0] ++ mA1 :: [])).nodes.filter
          (fun n => n.type == "System" && n.id == mA1.system.urn)
        = (export_json [mA0]).nodes.filter
          (fun n => n.type == "System" && n.id == mA1.system.urn))
      ∧ (export_json ([mA0] ++ [mA1])).edges
          = (export_json [mA0]).edges ++ manifestNewEdges mA1
      ∧ ∃ extra, (export_json ([mA0] ++ [mA1])).nodes
            = (export_json [mA0]).nodes ++ extra
          ∧ ∀ n ∈ extra, (n.type = "System" ∧ n.stub = true) ∨ n.type = "Capability") :=
  ⟨by decide, c2_duplicate_urn [mA0] mA1 [] (by decide)⟩

/-- C2, counterexample to the original claim: a later manifest with a
duplicate URN does add a node (its Capability node), so it does not
contribute "edges only". -/
theorem c2_counterexample :
    (export_json [mA0, mA1]).nodes ≠ (export_json [mA0]).nodes := by decide

/-- C3: every edge of the `export_json` output has `from` and `to` equal to
the id of some node present in the output node list (consumer System nodes,
synthesized stubs and capability nodes all exist by the time their edges are
appended). -/
theorem c3_edges_resolve (ms : List SCPManifest) (e : Edge)
    (he : e ∈ (export_json ms).edges) :
    (∃ n ∈ (export_json ms).nodes, n.id = e.from_)
      ∧ ∃ n ∈ (export_json ms).nodes, n.id = e.to_ := by
  have h := runManifests_endpoints ms e he
  unfold nodeIds at h
  constructor
  · rcases List.mem_map.mp h.1 with ⟨n, hn, hid⟩
    exact ⟨n, hn, hid⟩
  · rcases List.mem_map.mp h.2 with ⟨n, hn, hid⟩
    exact ⟨n, hn, hid⟩

/-- C3, witness: the DEPENDS_ON edge of a concrete manifest resolves. -/
theorem c3_witness :
    depEdge "u:w" depV ∈ (export_json [mW]).edges
    ∧ ((∃ n ∈ (export_json [mW]).nodes, n.id = (depEdge "u:w" depV).from_)
        ∧ ∃ n ∈ (export_json [mW]).nodes, n.id = (depEdge "u:w" depV).to_) :=
  ⟨by decide, c3_edges_resolve [mW] (depEdge "u:w" depV) (by decide)⟩

/-- C4: a dependency whose target URN is unseen at the moment it is processed
makes `export_json` append exactly one stub System node (id the target URN,
name its last colon segment, stub flag true, no tier/domain/team), mark the
target seen, and append exactly one DEPENDS_ON edge referencing it. -/
theorem c4_stub_synthesis (s : GState) (urn : String) (dep : Dependency)
    (h : dep.system ∉ s.seen_urns) :
    processDep urn s dep =
      ⟨s.nodes ++ [stubNodeOf dep.system],
       s.edges ++ [depEdge urn dep],
       s.seen_urns ++ [dep.system]⟩
    ∧ stubNodeOf dep.system =
      ⟨dep.system, "System", lastSeg dep.system, none, none, none, true, none⟩
    ∧ depEdge urn dep =
      ⟨urn, dep.system, "DEPENDS_ON", dep.capability, dep.criticality,
        dep.failure_mode⟩ := by
  refine ⟨?_, rfl, rfl⟩
  simp [processDep, h]

/-- C4, witness: concrete stub synthesis from the empty state. -/
theorem c4_witness :
    depV.system ∉ initState.seen_urns
    ∧ (processDep "u:w" initState depV =
        ⟨initState.nodes ++ [stubNodeOf depV.system],
         initState.edges ++ [depEdge "u:w" depV],
         initState.seen_urns ++ [depV.system]⟩
      ∧ stubNodeOf depV.system =
        ⟨depV.system, "System", lastSeg depV.system, none, none, none, true, none⟩
      ∧ depEdge "u:w" depV =
        ⟨"u:w", depV.system, "DEPENDS_ON", depV.capability, depV.criticality,
          depV.failure_mode⟩) :=
  ⟨by decide, c4_stub_synthesis initState "u:w" depV (by decide)⟩

/-- C5: the `meta` record of the `export_json` output is derived from the
emitted collections: `systems_count` counts the System-typed nodes,
`capabilities_count` the Capability-typed nodes, `dependencies_count` the
DEPENDS_ON-typed edges. -/
theorem c5_meta_counts (ms : List SCPManifest) :
    (export_json ms).meta.systems_count
        = ((export_json ms).nodes.filter (fun n => n.type == "System")).length
    ∧ (export_json ms).meta.capabilities_count
        = ((export_json ms).nodes.filter (fun n => n.type == "Capability")).length
    ∧ (export_json ms).meta.dependencies_count
        = ((export_json ms).edges.filter (fun e => e.type == "DEPENDS_ON")).length :=
  ⟨rfl, rfl, rfl⟩

/-- C6: when a URN first enters the output as a dependency stub and a later
manifest declares a System with that URN, the only System node for that URN
in the whole output remains the stub (stub flag true, name the URN's last
segment, no tier/domain/team); the declaring manifest still contributes its
edges and its stub/capability nodes. -/
theorem c6_stub_first_wins (pre : List SCPManifest) (m : SCPManifest)
    (post : List SCPManifest)
    (h : ∃ n ∈ (export_json pre).nodes, n.id = m.system.urn ∧ n.stub = true) :
    (∀ n ∈ (export_json (pre ++ m :: post)).nodes,
        n.type = "System" → n.id = m.system.urn → n = stubNodeOf m.system.urn)
    ∧ (export_json (pre ++ [m])).edges = (export_json pre).edges ++ manifestNewEdges m
    ∧ ∃ stubs, (export_json (pre ++ [m])).nodes
          = (export_json pre).nodes ++ stubs
            ++ (m.provides.getD []).map (capNodeOf m.system.urn)
        ∧ ∀ n ∈ stubs, n.stub = true := by
  rcases h with ⟨n0, hn0, hid0, hstub0⟩
  have h0 : n0 = stubNodeOf m.system.urn := by
    have := runManifests_stub_shape pre n0 hn0 hstub0
    rw [hid0] at this
    exact this
  have htype0 : n0.type = "System" := by rw [h0]; rfl
  have hfil0 : n0 ∈ (runManifests pre).nodes.filter
      (fun n => n.type == "System") :=
    List.mem_filter.mpr ⟨hn0, by simp [htype0]⟩
  have hu : m.system.urn ∈ (runManifests pre).seen_urns := by
    rw [← runManifests_sysIds]
    exact List.mem_map.mpr ⟨n0, hfil0, hid0⟩
  have hnodup : (sysIds (runManifests pre).nodes).Nodup := by
    rw [runManifests_sysIds]
    exact runManifests_seen_nodup pre
  have hsplit : runManifests (pre ++ m :: post)
      = (m :: post).foldl processManifest (runManifests pre) := by
    unfold runManifests
    rw [List.foldl_append]
  have hone : runManifests (pre ++ [m]) = processManifest (runManifests pre) m := by
    unfold runManifests
    rw [List.foldl_append]
    rfl
  refine ⟨?_, ?_, ?_⟩
  · intro n hn ht hid
    have hfull : n ∈ (runManifests (pre ++ m :: post)).nodes.filter
        (fun n => n.type == "System" && n.id == m.system.urn) :=
      List.mem_filter.mpr ⟨hn, by simp [ht, hid]⟩
    rw [hsplit, foldl_sys_filter_stable (m :: post) (runManifests pre) _ hu] at hfull
    have hpre := List.mem_filter.mp hfull
    have hfiln : n ∈ (runManifests pre).nodes.filter
        (fun n => n.type == "System") :=
      List.mem_filter.mpr ⟨hpre.1, by simp [ht]⟩
    have heq : n = n0 :=
      List.inj_on_of_nodup_map hnodup hfiln hfil0 (by rw [hid, hid0])
    rw [heq, h0]
  · show (runManifests (pre ++ [m])).edges = (runManifests pre).edges ++ _
    rw [hone, processManifest_spec]
  · refine ⟨stubsAcc ((runManifests pre).seen_urns
        ++ (sysPart (runManifests pre).seen_urns m).map (fun n => n.id))
        (m.depends.getD []), ?_, ?_⟩
    · show (runManifests (pre ++ [m])).nodes = (runManifests pre).nodes ++ _ ++ _
      rw [hone, processManifest_spec]
      show _ ++ manifestNewNodes _ _ = _
      unfold manifestNewNodes
      rw [sysPart, if_pos hu]
      simp
    · intro n hn
      exact stubsAcc_stub _ _ n hn

/-- C6, witness: `u:v` enters as a stub of `mW` and is then declared by `mV`. -/
theorem c6_witness :
    (∃ n ∈ (export_json [mW]).nodes, n.id = mV.system.urn ∧ n.stub = true)
    ∧ ((∀ n ∈ (export_json ([mW] ++ mV :: [])).nodes,
          n.type = "System" → n.id = mV.system.urn → n = stubNodeOf mV.system.urn)
      ∧ (export_json ([mW] ++ [mV])).edges
          = (export_json [mW]).edges ++ manifestNewEdges mV
      ∧ ∃ stubs, (export_json ([mW] ++ [mV])).nodes
            = (export_json [mW]).nodes ++ stubs
              ++ (mV.provides.getD []).map (capNodeOf mV.system.urn)
          ∧ ∀ n ∈ stubs, n.stub = true) :=
  ⟨by decide, c6_stub_first_wins [mW] mV [] (by decide)⟩

/-- C9: `export_json` appends each manifest's contribution after everything
emitted for earlier manifests, and within one manifest the System node (if
new) comes first, then the dependency stubs, then the capability nodes; the
DEPENDS_ON edges all precede the PROVIDES edges of that manifest. -/
theorem c9_ordering (pre : List SCPManifest) (m : SCPManifest) :
    (export_json (pre ++ [m])).nodes
      = (export_json pre).nodes
        ++ sysPart (runManifests pre).seen_urns m
        ++ stubsAcc ((runManifests pre).seen_urns
              ++ (sysPart (runManifests pre).seen_urns m).map (fun n => n.id))
            (m.depends.getD [])
        ++ (m.provides.getD []).map (capNodeOf m.system.urn)
    ∧ (export_json (pre ++ [m])).edges
      = (export_json pre).edges
        ++ (m.depends.getD []).map (depEdge m.system.urn)
        ++ (m.provides.getD []).map (provEdge m.system.urn) := by
  have hone : runManifests (pre ++ [m]) = processManifest (runManifests pre) m := by
    unfold runManifests
    rw [List.foldl_append]
    rfl
  constructor
  · show (runManifests (pre ++ [m])).nodes = (runManifests pre).nodes ++ _ ++ _ ++ _
    rw [hone, processManifest_spec]
    show _ ++ manifestNewNodes _ _ = _
    unfold manifestNewNodes
    simp [List.append_assoc]
  · show (runManifests (pre ++ [m])).edges = (runManifests pre).edges ++ _ ++ _
    rw [hone, processManifest_spec]
    show _ ++ manifestNewEdges _ = _
    unfold manifestNewEdges
    simp [List.append_assoc]

/-! ### Registry lemmas for `export_mermaid` -/

theorem regFind_insert_self (reg : Registry) (k : String) (v : MSysInfo) :
    regFind (regInsert reg k v) k = some v := by
  induction reg with
  | nil => simp [regInsert, regFind]
  | cons p ps ih =>
      by_cases h : p.1 = k
      · simp [regInsert, regFind, h]
      · simp [regInsert, regFind, h, ih]

theorem regFind_insert_ne (reg : Registry) (k : String) (v : MSysInfo)
    (u : String) (h : u ≠ k) : regFind (regInsert reg k v) u = regFind reg u := by
  have hku : ¬ k = u := fun hh => h hh.symm
  induction reg with
  | nil => simp [regInsert, regFind, hku]
  | cons p ps ih =>
      by_cases hp : p.1 = k
      · have hpu : ¬ p.1 = u := by rw [hp]; exact hku
        simp [regInsert, regFind, hp, hpu, hku]
      · by_cases hu : p.1 = u
        · simp [regInsert, regFind, hp, hu, h]
        · simp [regInsert, regFind, hp, hu, ih]

theorem regFind_append_some (reg : Registry) (ps : Registry) (u : String)
    (i : MSysInfo) (h : regFind reg u = some i) :
    regFind (reg ++ ps) u = some i := by
  induction reg with
  | nil => simp [regFind] at h
  | cons p l ih =>
      by_cases hp : p.1 = u
      · simp only [regFind, hp, if_pos] at h
        simp [regFind, hp, h]
      · simp only [regFind, hp, if_neg, if_false] at h
        simp [regFind, hp, ih h]

theorem regFind_append_none (reg : Registry) (ps : Registry) (u : String)
    (h : regFind reg u = none) : regFind (reg ++ ps) u = regFind ps u := by
  induction reg with
  | nil => simp
  | cons p l ih =>
      by_cases hp : p.1 = u
      · simp [regFind, hp] at h
      · simp only [regFind, hp, if_neg, if_false] at h
        simp [regFind, hp, ih h]

theorem regFind_mem (reg : Registry) (u : String) (i : MSysInfo)
    (h : regFind reg u = some i) : (u, i) ∈ reg := by
  induction reg with
  | nil => simp [regFind] at h
  | cons p l ih =>
      rcases p with ⟨pk, pv⟩
      by_cases hp : pk = u
      · simp only [regFind, hp, if_pos, Option.some.injEq] at h
        subst hp
        subst h
        exact List.mem_cons_self _ _
      · simp only [regFind, hp, if_neg, if_false] at h
        exact List.mem_cons_of_mem _ (ih h)

theorem regInsert_keys_mono (reg : Registry) (k : String) (v : MSysInfo) :
    ∃ t, (regInsert reg k v).map Prod.fst = reg.map Prod.fst ++ t := by
  induction reg with
  | nil => exact ⟨[k], rfl⟩
  | cons p ps ih =>
      by_cases h : p.1 = k
      · exact ⟨[], by simp [regInsert, h]⟩
      · rcases ih with ⟨t, ht⟩
        exact ⟨t, by simp [regInsert, h, ht]⟩

theorem hasKey_regInsert (reg : Registry) (k : String) (v : MSysInfo)
    (u : String) (h : hasKey reg u = true) :
    hasKey (regInsert reg k v) u = true := by
  by_cases hu : u = k
  · subst hu
    unfold hasKey
    rw [regFind_insert_self]
    rfl
  · unfold hasKey at h ⊢
    rw [regFind_insert_ne _ _ _ _ hu]
    exact h

theorem hasKey_regInsert_self (reg : Registry) (k : String) (v : MSysInfo) :
    hasKey (regInsert reg k v) k = true := by
  unfold hasKey
  rw [regFind_insert_self]
  rfl

theorem hasKey_append (reg : Registry) (ps : Registry) (u : String)
    (h : hasKey reg u = true) : hasKey (reg ++ ps) u = true := by
  unfold hasKey at h ⊢
  cases hf : regFind reg u with
  | none => rw [hf] at h; simp at h
  | some i => rw [regFind_append_some reg ps u i hf]; rfl

theorem hasKey_append_self (reg : Registry) (k : String) (v : MSysInfo)
    (h : hasKey reg k = false) : hasKey (reg ++ [(k, v)]) k = true := by
  unfold hasKey at h ⊢
  cases hf : regFind reg k with
  | none => rw [regFind_append_none reg _ k hf]; simp [regFind]
  | some i => rw [hf] at h; simp at h

/-! ### Preservation of registry bindings through the mermaid gathering loop -/

theorem mDepStep_preserves_find (urn : String) (d : Dependency) (a : MState)
    (u : String) (i : MSysInfo) (h : regFind a.1 u = some i) :
    regFind (mDepStep urn a d).1 u = some i := by
  unfold mDepStep
  by_cases hk : hasKey a.1 d.system
  · simpa [hk] using h
  · simp only [hk, Bool.false_eq_true, if_neg, if_false]
    exact regFind_append_some _ _ _ _ h

theorem mDepFold_preserves_find (urn : String) (deps : List Dependency) :
    ∀ (a : MState) (u : String) (i : MSysInfo), regFind a.1 u = some i →
      regFind ((deps.foldl (mDepStep urn) a)).1 u = some i := by
  induction deps with
  | nil => intro a u i h; exact h
  | cons d ds ih =>
      intro a u i h
      rw [List.foldl_cons]
      exact ih _ u i (mDepStep_preserves_find urn d a u i h)

theorem mManifestStep_preserves_find (m : SCPManifest) (a : MState)
    (u : String) (i : MSysInfo) (hne : m.system.urn ≠ u)
    (h : regFind a.1 u = some i) :
    regFind (mManifestStep a m).1 u = some i := by
  unfold mManifestStep
  refine mDepFold_preserves_find _ _ _ u i ?_
  show regFind (regInsert a.1 m.system.urn (sysInfoOf m)) u = some i
  rw [regFind_insert_ne _ _ _ _ (fun hh => hne hh.symm)]
  exact h

theorem mFold_preserves_find (post : List SCPManifest) :
    ∀ (a : MState) (u : String) (i : MSysInfo),
      (∀ m' ∈ post, m'.system.urn ≠ u) → regFind a.1 u = some i →
      regFind ((post.foldl mManifestStep a)).1 u = some i := by
  induction post with
  | nil => intro a u i _ h; exact h
  | cons m rest ih =>
      intro a u i hne h
      rw [List.foldl_cons]
      exact ih _ u i (fun m' hm' => hne m' (List.mem_cons_of_mem _ hm'))
        (mManifestStep_preserves_find m a u i (hne m (List.mem_cons_self _ _)) h)

theorem mDepStep_keys_mono (urn : String) (d : Dependency) (a : MState) :
    ∃ t, (mDepStep urn a d).1.map Prod.fst = a.1.map Prod.fst ++ t := by
  unfold mDepStep
  by_cases hk : hasKey a.1 d.system
  · exact ⟨[], by simp [hk]⟩
  · exact ⟨[d.system], by simp [hk]⟩

theorem mDepFold_keys_mono (urn : String) (deps : List Dependency) :
    ∀ a : MState, ∃ t,
      ((deps.foldl (mDepStep urn) a)).1.map Prod.fst = a.1.map Prod.fst ++ t := by
  induction deps with
  | nil => intro a; exact ⟨[], by simp⟩
  | cons d ds ih =>
      intro a
      rw [List.foldl_cons]
      rcases ih (mDepStep urn a d) with ⟨t1, ht1⟩
      rcases mDepStep_keys_mono urn d a with ⟨t2, ht2⟩
      exact ⟨t2 ++ t1, by rw [ht1, ht2, List.append_assoc]⟩

theorem mManifestStep_keys_mono (m : SCPManifest) (a : MState) :
    ∃ t, (mManifestStep a m).1.map Prod.fst = a.1.map Prod.fst ++ t := by
  unfold mManifestStep
  rcases mDepFold_keys_mono m.system.urn (m.depends.getD [])
    (regInsert a.1 m.system.urn (sysInfoOf m), a.2) with ⟨t1, ht1⟩
  rcases regInsert_keys_mono a.1 m.system.urn (sysInfoOf m) with ⟨t2, ht2⟩
  exact ⟨t2 ++ t1, by rw [ht1]; show (regInsert _ _ _).map _ ++ _ = _; rw [ht2, List.append_assoc]⟩

theorem mFold_keys_mono (post : List SCPManifest) :
    ∀ a : MState, ∃ t,
      ((post.foldl mManifestStep a)).1.map Prod.fst = a.1.map Prod.fst ++ t := by
  induction post with
  | nil => intro a; exact ⟨[], by simp⟩
  | cons m rest ih =>
      intro a
      rw [List.foldl_cons]
      rcases ih (mManifestStep a m) with ⟨t1, ht1⟩
      rcases mManifestStep_keys_mono m a with ⟨t2, ht2⟩
      exact ⟨t2 ++ t1, by rw [ht1, ht2, List.append_assoc]⟩

/-! ### Claim theorems about `export_mermaid` -/

/-- C7: with duplicate URNs, the last manifest's registration wins in
`export_mermaid`: the registry binds the URN to the declaring manifest's
sanitized id, real display name and tier (overwriting any earlier record,
including a stub synthesized from a dependency), while registration
positions of previously present keys are preserved (keys are only ever
appended); the node line rendered from that binding appears in the output. -/
theorem c7_last_registration_wins (pre : List SCPManifest) (m : SCPManifest)
    (post : List SCPManifest)
    (h : ∀ m' ∈ post, m'.system.urn ≠ m.system.urn) :
    regFind (mermaidGather (pre ++ m :: post)).1 m.system.urn = some (sysInfoOf m)
    ∧ sysInfoOf m = ⟨_urn_to_id m.system.urn, m.system.name,
        m.system.classification.bind (fun c => c.tier)⟩
    ∧ (∃ t, (mermaidGather (pre ++ m :: post)).1.map Prod.fst
          = (mermaidGather pre).1.map Prod.fst ++ t)
    ∧ nodeLine (sysInfoOf m) ∈ mermaidLines (pre ++ m :: post) "LR" := by
  have hsplit : mermaidGather (pre ++ m :: post)
      = post.foldl mManifestStep (mManifestStep (mermaidGather pre) m) := by
    unfold mermaidGather
    rw [List.foldl_append, List.foldl_cons]
  have hfind : regFind (mermaidGather (pre ++ m :: post)).1 m.system.urn
      = some (sysInfoOf m) := by
    rw [hsplit]
    refine mFold_preserves_find post _ _ _ h ?_
    unfold mManifestStep
    refine mDepFold_preserves_find _ _ _ _ _ ?_
    exact regFind_insert_self _ _ _
  refine ⟨hfind, rfl, ?_, ?_⟩
  · rw [hsplit]
    rcases mFold_keys_mono post (mManifestStep (mermaidGather pre) m) with ⟨t1, ht1⟩
    rcases mManifestStep_keys_mono m (mermaidGather pre) with ⟨t2, ht2⟩
    exact ⟨t2 ++ t1, by rw [ht1, ht2, List.append_assoc]⟩
  · have hmem : (m.system.urn, sysInfoOf m) ∈ (mermaidGather (pre ++ m :: post)).1 :=
      regFind_mem _ _ _ hfind
    have hline : nodeLine (sysInfoOf m)
        ∈ (mermaidGather (pre ++ m :: post)).1.map (fun p => nodeLine p.2) :=
      List.mem_map.mpr ⟨(m.system.urn, sysInfoOf m), hmem, rfl⟩
    unfold mermaidLines
    simp only [List.mem_append]
    tauto

/-- C7, witness: `u:v` first enters as `mW`'s stub, then `mV` declares it;
the rendered record is `mV`'s. -/
theorem c7_witness :
    (∀ m' ∈ ([] : List SCPManifest), m'.system.urn ≠ mV.system.urn)
    ∧ (regFind (mermaidGather ([mW] ++ mV :: [])).1 mV.system.urn = some (sysInfoOf mV)
      ∧ sysInfoOf mV = ⟨_urn_to_id mV.system.urn, mV.system.name,
          mV.system.classification.bind (fun c => c.tier)⟩
      ∧ (∃ t, (mermaidGather ([mW] ++ mV :: [])).1.map Prod.fst
            = (mermaidGather [mW]).1.map Prod.fst ++ t)
      ∧ nodeLine (sysInfoOf mV) ∈ mermaidLines ([mW] ++ mV :: []) "LR") :=
  ⟨by decide, c7_last_registration_wins [mW] mV [] (by decide)⟩

/-- C8, counterexample: the URNs `x:a-b` (tier 2) and `x:a_b` (tier 1) both
sanitize to the identifier `a_b`, so the tier-2 system's identifier does
appear in the critical class application list. -/
theorem c8_counterexample :
    ∃ p ∈ (mermaidGather [m8a, m8b]).1,
      p.2.tier = some 2 ∧ p.2.id ∈ tier1Ids (mermaidGather [m8a, m8b]).1 := by
  decide

/-- C8 (amended): tier-1 systems render with the double-bracket critical
shape and contribute their identifier to the class application list (built
from the tier-1 entries in registration order); tier-2 systems render with
the single-bracket warning shape and contribute no entry to that list
(though a colliding tier-1 identifier may still equal theirs); systems with
any other tier render plainly; the whole style block is omitted exactly when
no tier-1 system exists; every registered system's node line appears in the
output. -/
theorem c8_tier_styling (ms : List SCPManifest) :
    (∀ p ∈ (mermaidGather ms).1, p.2.tier = some 1 →
        nodeLine p.2 = "    " ++ p.2.id ++ "[[\"🔴 " ++ p.2.name ++ "\"]]"
        ∧ p.2.id ∈ tier1Ids (mermaidGather ms).1)
    ∧ (∀ p ∈ (mermaidGather ms).1, p.2.tier = some 2 →
        nodeLine p.2 = "    " ++ p.2.id ++ "[\"🟡 " ++ p.2.name ++ "\"]")
    ∧ (∀ p ∈ (mermaidGather ms).1, p.2.tier ≠ some 1 → p.2.tier ≠ some 2 →
        nodeLine p.2 = "    " ++ p.2.id ++ "[\"" ++ p.2.name ++ "\"]")
    ∧ tier1Ids (mermaidGather ms).1
        = ((mermaidGather ms).1.filter (fun p => p.2.tier == some 1)).map
            (fun p => p.2.id)
    ∧ (tier1Ids (mermaidGather ms).1 = [] → styleLines (mermaidGather ms).1 = [])
    ∧ (tier1Ids (mermaidGather ms).1 ≠ [] →
        styleLines (mermaidGather ms).1 =
          ["    classDef critical fill:#ff6b6b,stroke:#333,stroke-width:2px",
           "    class " ++ String.intercalate "," (tier1Ids (mermaidGather ms).1)
             ++ " critical"])
    ∧ ∀ p ∈ (mermaidGather ms).1, nodeLine p.2 ∈ mermaidLines ms "LR" := by
  refine ⟨?_, ?_, ?_, rfl, ?_, ?_, ?_⟩
  · intro p hp ht
    refine ⟨by rw [nodeLine, if_pos ht], ?_⟩
    unfold tier1Ids
    exact List.mem_map.mpr ⟨p, List.mem_filter.mpr ⟨hp, by simp [ht]⟩, rfl⟩
  · intro p hp ht
    have h1 : ¬ p.2.tier = some 1 := by rw [ht]; simp
    rw [nodeLine, if_neg h1, if_pos ht]
  · intro p hp h1 h2
    rw [nodeLine, if_neg h1, if_neg h2]
  · intro h
    rw [styleLines, if_pos h]
  · intro h
    rw [styleLines, if_neg h]
  · intro p hp
    have hline : nodeLine p.2 ∈ (mermaidGather ms).1.map (fun q => nodeLine q.2) :=
      List.mem_map.mpr ⟨p, hp, rfl⟩
    unfold mermaidLines
    simp only [List.mem_append]
    tauto

/-- C8, witness: a concrete tier-1 system renders critically and its id is
in the class list. -/
theorem c8_witness :
    (("x:a_b", sysInfoOf m8b) ∈ (mermaidGather [m8a, m8b]).1
      ∧ (sysInfoOf m8b).tier = some 1)
    ∧ (nodeLine (sysInfoOf m8b)
        = "    " ++ (sysInfoOf m8b).id ++ "[[\"🔴 " ++ (sysInfoOf m8b).name ++ "\"]]"
      ∧ (sysInfoOf m8b).id ∈ tier1Ids (mermaidGather [m8a, m8b]).1) :=
  ⟨⟨by decide, by decide⟩,
    (c8_tier_styling [m8a, m8b]).1 ("x:a_b", sysInfoOf m8b) (by decide) (by decide)⟩

/-! ### Totality: the export core raises no errors -/

theorem splitCh_ne_nil (c : Char) (xs : List Char) :
    ∀ acc, splitCh c xs acc ≠ [] := by
  induction xs with
  | nil => intro acc; simp [splitCh]
  | cons x l ih =>
      intro acc
      by_cases h : x = c
      · simp [splitCh, h]
      · simp only [splitCh, h, if_neg, if_false]
        exact ih _

theorem splitCh_no_sep (c : Char) (xs : List Char) (h : c ∉ xs) :
    ∀ acc, splitCh c xs acc = [acc.reverse ++ xs] := by
  induction xs with
  | nil => intro acc; simp [splitCh]
  | cons x l ih =>
      intro acc
      have hx : ¬ x = c := fun hh => h (hh ▸ List.mem_cons_self _ _)
      have hl : c ∉ l := fun hh => h (List.mem_cons_of_mem _ hh)
      simp only [splitCh, hx, if_neg, if_false]
      rw [ih hl]
      simp

theorem mDepStep_lookups (urn : String) (d : Dependency) (a : MState)
    (hurn : hasKey a.1 urn = true)
    (hL : ∀ t ∈ a.2, hasKey a.1 t.1 = true ∧ hasKey a.1 t.2.1 = true) :
    hasKey (mDepStep urn a d).1 urn = true
    ∧ ∀ t ∈ (mDepStep urn a d).2,
        hasKey (mDepStep urn a d).1 t.1 = true
        ∧ hasKey (mDepStep urn a d).1 t.2.1 = true := by
  unfold mDepStep
  by_cases hk : hasKey a.1 d.system
  · simp only [hk, if_pos]
    refine ⟨hurn, ?_⟩
    intro t ht
    rcases List.mem_append.mp ht with ht | ht
    · exact hL t ht
    · rcases List.mem_singleton.mp ht with rfl
      exact ⟨hurn, hk⟩
  · simp only [hk, Bool.false_eq_true, if_neg, if_false]
    have hk' : hasKey a.1 d.system = false := by
      cases hkk : hasKey a.1 d.system
      · rfl
      · exact absurd hkk hk
    refine ⟨hasKey_append _ _ _ hurn, ?_⟩
    intro t ht
    rcases List.mem_append.mp ht with ht | ht
    · rcases hL t ht with ⟨h1, h2⟩
      exact ⟨hasKey_append _ _ _ h1, hasKey_append _ _ _ h2⟩
    · rcases List.mem_singleton.mp ht with rfl
      exact ⟨hasKey_append _ _ _ hurn, hasKey_append_self _ _ _ hk'⟩

theorem mDepFold_lookups (urn : String) (deps : List Dependency) :
    ∀ a : MState, hasKey a.1 urn = true →
      (∀ t ∈ a.2, hasKey a.1 t.1 = true ∧ hasKey a.1 t.2.1 = true) →
      ∀ t ∈ ((deps.foldl (mDepStep urn) a)).2,
        hasKey ((deps.foldl (mDepStep urn) a)).1 t.1 = true
        ∧ hasKey ((deps.foldl (mDepStep urn) a)).1 t.2.1 = true := by
  induction deps with
  | nil => intro a _ hL; exact hL
  | cons d ds ih =>
      intro a hurn hL
      rw [List.foldl_cons]
      rcases mDepStep_lookups urn d a hurn hL with ⟨hurn', hL'⟩
      exact ih _ hurn' hL'

theorem mManifestStep_lookups (m : SCPManifest) (a : MState)
    (hL : ∀ t ∈ a.2, hasKey a.1 t.1 = true ∧ hasKey a.1 t.2.1 = true) :
    ∀ t ∈ (mManifestStep a m).2,
      hasKey (mManifestStep a m).1 t.1 = true
      ∧ hasKey (mManifestStep a m).1 t.2.1 = true := by
  unfold mManifestStep
  refine mDepFold_lookups _ _ _ ?_ ?_
  · exact hasKey_regInsert_self _ _ _
  · intro t ht
    rcases hL t ht with ⟨h1, h2⟩
    exact ⟨hasKey_regInsert _ _ _ _ h1, hasKey_regInsert _ _ _ _ h2⟩

theorem mFold_lookups (ms : List SCPManifest) :
    ∀ a : MState,
      (∀ t ∈ a.2, hasKey a.1 t.1 = true ∧ hasKey a.1 t.2.1 = true) →
      ∀ t ∈ ((ms.foldl mManifestStep a)).2,
        hasKey ((ms.foldl mManifestStep a)).1 t.1 = true
        ∧ hasKey ((ms.foldl mManifestStep a)).1 t.2.1 = true := by
  induction ms with
  | nil => intro a hL; exact hL
  | cons m rest ih =>
      intro a hL
      rw [List.foldl_cons]
      exact ih _ (mManifestStep_lookups m a hL)

/-- C10: the export core raises no error on any input. The Python split of a
URN never yields an empty list (so the guard in `_urn_to_id` always takes
the main branch and negative indexing succeeds), a URN without a colon
degrades to using the whole string as its last segment, and every registry
lookup made while rendering `export_mermaid` edges succeeds. `export_json`
performs no fallible operation at all, so both exports are total. -/
theorem c10_no_errors (ms : List SCPManifest) (u : String) :
    splitCh ':' u.data [] ≠ []
    ∧ _urn_to_id u
        = ⟨((splitCh ':' u.data []).getLastD []).map
            (fun ch => if ch = '-' then '_' else ch)⟩
    ∧ (':' ∉ u.data → lastSeg u = u)
    ∧ mermaidLookupsOk ms = true := by
  refine ⟨splitCh_ne_nil ':' u.data [], ?_, ?_, ?_⟩
  · simp [_urn_to_id, splitCh_ne_nil ':' u.data []]
  · intro h
    unfold lastSeg lastSegList
    rw [splitCh_no_sep ':' u.data h []]
    show String.mk (List.reverse [] ++ u.data) = u
    cases u
    simp
  · unfold mermaidLookupsOk
    refine List.all_eq_true.mpr ?_
    intro t ht
    have h := mFold_lookups ms ([], []) (by intro t ht; simp at ht) t ht
    rw [Bool.and_eq_true]
    exact h

/-- C10, witness: a colon-free URN degrades gracefully and a concrete
sequence resolves all mermaid lookups. -/
theorem c10_witness :
    (':' ∉ ("nocolon" : String).data ∧ lastSeg "nocolon" = "nocolon")
    ∧ mermaidLookupsOk [mW, mV] = true :=
  ⟨⟨by decide, (c10_no_errors [mW, mV] "nocolon").2.2.1 (by decide)⟩,
    (c10_no_errors [mW, mV] "nocolon").2.2.2⟩

end SCP
